import Mathlib

/-!
Shallow embedding of the timetable dashboard's grid-construction and
normalization logic (TimeTableGenerator, `timetable-frontend`).

JavaScript strings are modelled as `List Char` (`JStr`); a possibly-absent
field (`undefined`) is `Option JStr`.  The components' pure data-shaping
functions (`sanitizeSlot`, `toMinutes`, slot collection, grid building,
master partitioning) are translated directly from the source; the fetch
handlers are modelled as state-transition functions taking the request's
outcome as an explicit argument.
-/

abbrev JStr := List Char

/-- One lesson record as delivered by the backend
(`TimetableEntry` in `StudentTimeTable.tsx` / `MasterTimetable`). -/
structure TimetableEntry where
  groupId : Option JStr
  courseId : Option JStr
  day : JStr
  facultyId : Option JStr
  roomId : Option JStr
  time : Option JStr
  timeSlot : Option JStr
deriving DecidableEq, Repr

/-- Constant `DAY_ORDER` from `StudentTimeTable.tsx`: the fixed weekday sequence. -/
def DAY_ORDER : List JStr :=
  ["Monday".toList, "Tuesday".toList, "Wednesday".toList, "Thursday".toList,
   "Friday".toList, "Saturday".toList, "Sunday".toList]

/-- Constant `dayOrder` from the unnamed `MasterTimetable` variant (`part_002`):
six days only, Sunday absent. -/
def dayOrderMaster : List JStr :=
  ["Monday".toList, "Tuesday".toList, "Wednesday".toList, "Thursday".toList,
   "Friday".toList, "Saturday".toList]

/-- Numeric value of a digit character (JS `parseInt` on a digit). -/
def digitVal (c : Char) : Nat := c.toNat - 48

/-- The regex `/^(\d{1,2}):(\d{2})/`: try two digits, a colon and two digits
at the start; on failure of the two-digit hour, backtrack to one digit. -/
def matchHHMM : JStr → Option (Nat × Nat)
  | c1 :: c2 :: rest =>
    if c1.isDigit then
      if c2.isDigit then
        match rest with
        | c3 :: m1 :: m2 :: _ =>
          if c3 = ':' ∧ m1.isDigit ∧ m2.isDigit then
            some (digitVal c1 * 10 + digitVal c2, digitVal m1 * 10 + digitVal m2)
          else none
        | _ => none
      else if c2 = ':' then
        match rest with
        | m1 :: m2 :: _ =>
          if m1.isDigit ∧ m2.isDigit then
            some (digitVal c1, digitVal m1 * 10 + digitVal m2)
          else none
        | _ => none
      else none
    else none
  | _ => none

/-- JS `String.prototype.trim`. -/
def jsTrim (s : JStr) : JStr :=
  ((s.dropWhile Char.isWhitespace).reverse.dropWhile Char.isWhitespace).reverse

/-- The separator chosen by the student `toMinutes`: hyphen if present,
else en-dash if present, else hyphen. -/
def sepOf (slot : JStr) : Char :=
  if '-' ∈ slot then '-' else if '–' ∈ slot then '–' else '-'

/-- Expression `slot.split(sep)[0].trim()`: the text before the first separator,
trimmed. -/
def startOf (slot : JStr) : JStr :=
  jsTrim (slot.takeWhile (fun c => c ≠ sepOf slot))

/-- Function `toMinutes` from `StudentTimeTable.tsx`: pick the separator (hyphen if
present, else en-dash, else hyphen), take the text before the first
separator, trim it, and read a leading `HH:MM`; 0 on empty input or no
match. -/
def toMinutes (slot : JStr) : Nat :=
  if slot = [] then 0
  else
    match matchHHMM (startOf slot) with
    | none => 0
    | some (h, m) => h * 60 + m

/-- Function `toMinutes` from the unnamed `MasterTimetable` variant (`part_002`):
match `HH:MM` directly at the start of the label; 0 otherwise. -/
def toMinutesMaster (slot : JStr) : Nat :=
  if slot = [] then 0
  else
    match matchHHMM slot with
    | none => 0
    | some (h, m) => h * 60 + m

/-- JS `raw.split("_")`. -/
def splitUnderscore : JStr → List JStr
  | [] => [[]]
  | c :: cs =>
    match splitUnderscore cs with
    | [] => [[]]
    | h :: t => if c = '_' then [] :: h :: t else (c :: h) :: t

/-- JS `parts.join("_")`. -/
def joinUnderscore : List JStr → JStr
  | [] => []
  | [x] => x
  | x :: y :: t => x ++ '_' :: joinUnderscore (y :: t)

/-- Function `sanitizeSlot` from `StudentTimeTable.tsx`: `""` on absent/empty input;
otherwise split on `_`, and when there are at least two parts and the
first is a weekday, rejoin the remaining parts; else return the input. -/
def sanitizeSlot (raw : Option JStr) : JStr :=
  match raw with
  | none => []
  | some r =>
    if r = [] then []
    else
      let parts := splitUnderscore r
      if 2 ≤ parts.length ∧ parts.headI ∈ DAY_ORDER then
        joinUnderscore parts.tail
      else r

/-- Expression `t["Time Slot"] ?? t["Time"]` (nullish coalescing). -/
def slotField (e : TimetableEntry) : Option JStr :=
  match e.timeSlot with
  | some v => some v
  | none => e.time

/-- The normalized slot label of a record in the student grid renderer. -/
def entrySlot (e : TimetableEntry) : JStr := sanitizeSlot (slotField e)

/-- Insertion-ordered deduplication: the iteration order of a JS `Set`
fed by successive `add`s (first occurrence wins). -/
def insertDedup {α : Type} [DecidableEq α] (l : List α) : List α :=
  l.foldl (fun acc s => if s ∈ acc then acc else acc ++ [s]) []

/-- The student renderer's `timeSlotsSet`: distinct non-empty normalized
slot labels, in first-occurrence order. -/
def distinctSlots (tt : List TimetableEntry) : List JStr :=
  insertDedup ((tt.map entrySlot).filter (fun s => s ≠ []))

/-- Stable insertion of `a` into `l`: `a` goes in front of the first
element it compares `≤` to. -/
def insertBy {α : Type} (le : α → α → Bool) (a : α) : List α → List α
  | [] => [a]
  | b :: t => if le a b then a :: b :: t else b :: insertBy le a t

/-- Stable sort by a boolean comparator.  ECMAScript's
`Array.prototype.sort` with a consistent comparator is required to be
stable, and every stable sort of a total preorder produces the same
output, so this insertion sort is an exact model of the engine's sort. -/
def stableSortBy {α : Type} (le : α → α → Bool) : List α → List α
  | [] => []
  | a :: t => insertBy le a (stableSortBy le t)

/-- Comparator of the student slot sort: `toMinutes a - toMinutes b`. -/
def slotLE (a b : JStr) : Bool := decide (toMinutes a ≤ toMinutes b)

/-- The student renderer's `timeSlots`: the distinct labels sorted (stably)
by start-minute. -/
def timeSlots (tt : List TimetableEntry) : List JStr :=
  stableSortBy slotLE (distinctSlots tt)

/-- One assignment `grid[slot][day] = entry` of the student renderer's
placement loop, including its two guards (`!slot`, unknown day). -/
def placeEntry (g : JStr → JStr → Option TimetableEntry) (e : TimetableEntry) :
    JStr → JStr → Option TimetableEntry :=
  let slot := entrySlot e
  if slot = [] then g
  else if e.day ∈ DAY_ORDER then
    fun s d => if s = slot ∧ d = e.day then some e else g s d
  else g

/-- The student renderer's grid after the placement loop, as a cell lookup
(cells start out `null`). -/
def buildGrid (tt : List TimetableEntry) : JStr → JStr → Option TimetableEntry :=
  tt.foldl placeEntry (fun _ _ => none)

/-- Outcome of rendering `StudentTimetable`: the "no classes" message, the
"no time slots" message, or a table with slot columns, day rows and a grid. -/
inductive StudentView where
  | noClasses
  | noSlots
  | table (slots : List JStr) (rows : List JStr)
      (grid : JStr → JStr → Option TimetableEntry)

/-- Component `StudentTimetable` from `StudentTimeTable.tsx` as a pure function of
the `timetable` prop (absent/`null` prop modelled as `none`). -/
def studentView (timetable : Option (List TimetableEntry)) : StudentView :=
  match timetable with
  | none => .noClasses
  | some tt =>
    if tt = [] then .noClasses
    else
      let slots := timeSlots tt
      if slots = [] then .noSlots
      else .table slots DAY_ORDER (buildGrid tt)

/-- Expression `rec["Batch/Group ID"] || "Unknown"` from the master variant
(`part_002`): the section key, falling back to `"Unknown"` for a missing
or empty group id. -/
def groupKeyOf (e : TimetableEntry) : JStr :=
  match e.groupId with
  | some g => if g = [] then "Unknown".toList else g
  | none => "Unknown".toList

/-- Append a record to its section's bucket, creating the bucket at the
end on first appearance (JS object property creation order). -/
def insertGroup : List (JStr × List TimetableEntry) → JStr → TimetableEntry →
    List (JStr × List TimetableEntry)
  | [], k, r => [(k, [r])]
  | (k', v) :: t, k, r =>
    if k' = k then (k', v ++ [r]) :: t else (k', v) :: insertGroup t k r

/-- The master variant's `grouped` object as its property table: one
bucket per section key, in property creation order.  (Enumeration order
of `Object.entries` is modelled separately by `groupEntries`.) -/
def groupRecords (recs : List TimetableEntry) : List (JStr × List TimetableEntry) :=
  recs.foldl (fun acc r => insertGroup acc (groupKeyOf r) r) []

/-- Numeric value of an all-digit string. -/
def strNatVal (s : JStr) : Nat :=
  s.foldl (fun acc c => acc * 10 + digitVal c) 0

/-- ECMAScript array-index property keys: the canonical decimal string
(no leading zero except `"0"` itself, digits only) of an integer below
`2^32 - 1`.  `Object.entries` enumerates these before all other string
keys, in ascending numeric order. -/
def canonicalIndex (s : JStr) : Option Nat :=
  if s ≠ [] ∧ s.all Char.isDigit ∧ (s = ['0'] ∨ s.headI ≠ '0') ∧
      strNatVal s < 4294967295
  then some (strNatVal s) else none

/-- Whether a property key is an array-index key. -/
def isIndexKey (s : JStr) : Bool := (canonicalIndex s).isSome

/-- The numeric value of an array-index key (0 for others). -/
def idxVal (s : JStr) : Nat := (canonicalIndex s).getD 0

/-- Comparator ordering the array-index properties numerically. -/
def entriesLE (a b : JStr × List TimetableEntry) : Bool :=
  decide (idxVal a.1 ≤ idxVal b.1)

/-- `Object.entries(grouped)` in ECMAScript enumeration order: the
array-index keys first, in ascending numeric order, then the remaining
string keys in property creation order.  This is the sequence of
(section, records) pairs the master variant maps to grids. -/
def groupEntries (recs : List TimetableEntry) : List (JStr × List TimetableEntry) :=
  stableSortBy entriesLE ((groupRecords recs).filter (fun p => isIndexKey p.1)) ++
    (groupRecords recs).filter (fun p => !isIndexKey p.1)

/-- JS `Array.prototype.indexOf`: position of the first occurrence, `-1`
when absent. -/
def jsIndexOf : List JStr → JStr → Int
  | [], _ => -1
  | h :: t, x =>
    if h = x then 0
    else
      match jsIndexOf t x with
      | -1 => -1
      | i => i + 1

/-- Comparator of the master day sort: `dayOrder.indexOf(a) - dayOrder.indexOf(b)`. -/
def masterDayLE (a b : JStr) : Bool :=
  decide (jsIndexOf dayOrderMaster a ≤ jsIndexOf dayOrderMaster b)

/-- The master variant's per-section `days`: distinct days present in the
section's records, sorted by their index in the six-day `dayOrder`. -/
def masterDays (entries : List TimetableEntry) : List JStr :=
  stableSortBy masterDayLE (insertDedup (entries.map (fun e => e.day)))

/-- Expression `t["Time"] || t["Time Slot"] || ""` from the master variant. -/
def masterSlotStr (e : TimetableEntry) : JStr :=
  match e.time with
  | some t => if t ≠ [] then t else match e.timeSlot with | some u => u | none => []
  | none => match e.timeSlot with | some u => u | none => []

/-- Comparator of the master slot sort: `toMinutes a - toMinutes b`
(part_002's `toMinutes`). -/
def masterSlotLE (a b : JStr) : Bool :=
  decide (toMinutesMaster a ≤ toMinutesMaster b)

/-- The master variant's per-section `timeSlots`: the distinct slot
strings with empties removed, sorted by start-minute. -/
def masterTimeSlots (entries : List TimetableEntry) : List JStr :=
  stableSortBy masterSlotLE
    ((insertDedup (entries.map masterSlotStr)).filter (fun s => s ≠ []))

/-- One assignment `grid[e.Day][slot] = e` of the master variant's
placement loop, guarded by `if (slot)`. -/
def placeMaster (g : JStr → JStr → Option TimetableEntry) (e : TimetableEntry) :
    JStr → JStr → Option TimetableEntry :=
  let slot := masterSlotStr e
  if slot = [] then g
  else fun d s => if d = e.day ∧ s = slot then some e else g d s

/-- The master variant's per-section grid (day → slot → entry). -/
def masterGrid (entries : List TimetableEntry) : JStr → JStr → Option TimetableEntry :=
  entries.foldl placeMaster (fun _ _ => none)

/-- Outcome of an HTTP GET as seen by a component: the parsed payload
field (possibly absent) on success, or any failure. -/
inductive FetchResult where
  | success (data : Option (List TimetableEntry))
  | failure
deriving DecidableEq

/-- Displayed state of the `MasterTimetable` component. -/
structure MasterState where
  records : List TimetableEntry
  error : JStr
  loading : Bool
deriving DecidableEq, Repr

/-- Handler `fetchMaster`: the component state once the request settles.  Success
stores `res.data.master_timetable || []` and clears the error; failure
sets the error message and leaves `records` untouched; `loading` ends
`false` either way (the `finally`). -/
def fetchMaster (s : MasterState) (r : FetchResult) : MasterState :=
  match r with
  | .success d => { records := d.getD [], error := [], loading := false }
  | .failure =>
    { records := s.records,
      error := "Failed to fetch master timetable. Did you run /generate?".toList,
      loading := false }

/-- Displayed state of the `StudentLookup` component. -/
structure LookupState where
  studentId : JStr
  timetable : List TimetableEntry
  loading : Bool
deriving DecidableEq, Repr

/-- Handler `handleSearch`: resulting state and the alert shown, if any.  An empty
student id aborts before any request; success stores
`res.data.timetable || []`; failure alerts and clears the list. -/
def handleSearch (s : LookupState) (r : FetchResult) : LookupState × Option JStr :=
  if s.studentId = [] then (s, some "Please enter a student ID".toList)
  else
    match r with
    | .success d => ({ s with timetable := d.getD [], loading := false }, none)
    | .failure =>
      ({ s with timetable := [], loading := false },
       some "Could not fetch timetable for this student.".toList)

/-- Outcome of the `/generate` request: the optional `message` field on
success, or any failure. -/
inductive GenResult where
  | success (msg : Option JStr)
  | failure
deriving DecidableEq

/-- What one run of `handleGenerate` did. -/
structure GenOutcome where
  alert : Option JStr
  callbackInvoked : Bool
  loadingAfter : Bool
deriving DecidableEq, Repr

/-- Handler `handleGenerate` from `GenerateButton.tsx`: early-return while
loading, confirm gate, then alert `message || "Timetable generated!"` and
invoke `onGenerated` on success, alert a failure message on failure, and
reset `loading` in the `finally`. -/
def handleGenerate (loading : Bool) (confirmed : Bool) (r : GenResult) : GenOutcome :=
  if loading then ⟨none, false, loading⟩
  else if confirmed then
    match r with
    | .success msg =>
      let m := match msg with
        | some t => if t ≠ [] then t else "Timetable generated!".toList
        | none => "Timetable generated!".toList
      ⟨some m, true, false⟩
    | .failure => ⟨some "Failed to generate timetable.".toList, false, false⟩
  else ⟨none, false, false⟩

/-- A record `e` hits cell `(slot s, day dy)` of the student grid: it
passes both placement guards and its key is that cell. -/
def cellHit (s dy : JStr) (e : TimetableEntry) : Bool :=
  decide (entrySlot e = s ∧ s ≠ [] ∧ e.day = dy ∧ dy ∈ DAY_ORDER)

lemma placeEntry_of_hit {s dy : JStr} {e : TimetableEntry}
    (h : cellHit s dy e = true) (g : JStr → JStr → Option TimetableEntry) :
    placeEntry g e s dy = some e := by
  simp only [cellHit, decide_eq_true_eq] at h
  obtain ⟨h1, h2, h3, h4⟩ := h
  unfold placeEntry
  simp only [h1.symm.trans rfl]
  rw [h1, h3] at *
  simp [placeEntry, h1, h3, h2, h4]

lemma placeEntry_of_miss {s dy : JStr} {e : TimetableEntry}
    (h : cellHit s dy e = false) (g : JStr → JStr → Option TimetableEntry) :
    placeEntry g e s dy = g s dy := by
  simp only [cellHit, decide_eq_false_iff_not] at h
  unfold placeEntry
  by_cases hslot : entrySlot e = []
  · simp [hslot]
  · by_cases hday : e.day ∈ DAY_ORDER
    · simp only [hslot, if_neg, hday, if_pos, if_true]
      by_cases hc : s = entrySlot e ∧ dy = e.day
      · exact absurd ⟨hc.1.symm, by simpa [hc.1] using hslot, hc.2.symm, hc.2 ▸ hday⟩ h
      · simp [hslot, hday, hc]
    · simp [hslot, hday]

lemma foldl_placeEntry (tt : List TimetableEntry)
    (g : JStr → JStr → Option TimetableEntry) (s dy : JStr) :
    (tt.foldl placeEntry g) s dy =
      match (tt.filter (cellHit s dy)).getLast? with
      | some e => some e
      | none => g s dy := by
  induction tt generalizing g with
  | nil => simp
  | cons e tt ih =>
    rw [List.foldl_cons, ih]
    by_cases hh : cellHit s dy e = true
    · rw [List.filter_cons_of_pos hh]
      cases hl : (tt.filter (cellHit s dy)).getLast? with
      | some e' =>
        obtain ⟨b, l, hbl⟩ : ∃ b l, tt.filter (cellHit s dy) = b :: l := by
          cases hfl : tt.filter (cellHit s dy) with
          | nil => rw [hfl] at hl; simp at hl
          | cons b l => exact ⟨b, l, rfl⟩
        rw [hbl] at hl ⊢
        simp [List.getLast?_cons_cons, hl]
      | none =>
        have hnil : tt.filter (cellHit s dy) = [] := by
          simpa using List.getLast?_eq_none_iff.mp hl
        rw [hnil]
        simp [placeEntry_of_hit hh]
    · rw [List.filter_cons_of_neg (by simpa using hh)]
      cases hl : (tt.filter (cellHit s dy)).getLast? with
      | some e' => simp
      | none => simp [placeEntry_of_miss (by simpa using hh)]

/-- The student grid cell `(s, dy)` holds exactly the last record of the
input whose normalized slot is `s` and whose day is `dy` (with both
placement guards passing), or `null` when there is none. -/
lemma buildGrid_eq_getLast (tt : List TimetableEntry) (s dy : JStr) :
    buildGrid tt s dy = (tt.filter (cellHit s dy)).getLast? := by
  unfold buildGrid
  rw [foldl_placeEntry]
  cases h : (tt.filter (cellHit s dy)).getLast? <;> simp

/-- Concrete record builder for witnesses. -/
def sampleEntry (day slot course : String) : TimetableEntry :=
  ⟨none, some course.toList, day.toList, none, none, none, some slot.toList⟩

/-- C1: if two records of the input share the same (day, normalized slot)
pair — and no later record also maps to that cell — the built grid holds
exactly the later of the two in that cell; the earlier is gone (no merge,
no error, one record per cell by construction). -/
theorem grid_collision_keeps_later
    (pre mid post : List TimetableEntry) (e1 e2 : TimetableEntry) (s dy : JStr)
    (h1s : entrySlot e1 = s) (h1d : e1.day = dy)
    (h2s : entrySlot e2 = s) (h2d : e2.day = dy)
    (hs : s ≠ []) (hdy : dy ∈ DAY_ORDER)
    (hpost : ∀ e ∈ post, ¬(entrySlot e = s ∧ e.day = dy)) :
    buildGrid (pre ++ e1 :: (mid ++ e2 :: post)) s dy = some e2 := by
  rw [buildGrid_eq_getLast]
  have hhit1 : cellHit s dy e1 = true := by
    simp [cellHit, h1s, h1d, hs, hdy]
  have hhit2 : cellHit s dy e2 = true := by
    simp [cellHit, h2s, h2d, hs, hdy]
  have hfp : post.filter (cellHit s dy) = [] := by
    rw [List.filter_eq_nil_iff]
    intro e he
    have := hpost e he
    simp only [cellHit, decide_eq_true_eq]
    tauto
  rw [List.filter_append, List.filter_cons_of_pos hhit1, List.filter_append,
    List.filter_cons_of_pos hhit2, hfp]
  have hshape :
      pre.filter (cellHit s dy) ++ e1 :: (mid.filter (cellHit s dy) ++ e2 :: []) =
      (pre.filter (cellHit s dy) ++ e1 :: mid.filter (cellHit s dy)) ++ [e2] := by
    simp
  rw [hshape]
  exact List.getLast?_concat _

/-- C1 witness: two Monday records on slot `10:00-11:00`; the cell holds
the second. -/
theorem grid_collision_keeps_later_witness :
    buildGrid [sampleEntry "Monday" "10:00-11:00" "CS101",
               sampleEntry "Monday" "10:00-11:00" "MA202"]
      "10:00-11:00".toList "Monday".toList =
      some (sampleEntry "Monday" "10:00-11:00" "MA202") :=
  grid_collision_keeps_later [] [] []
    (sampleEntry "Monday" "10:00-11:00" "CS101")
    (sampleEntry "Monday" "10:00-11:00" "MA202")
    "10:00-11:00".toList "Monday".toList
    (by decide) (by decide) (by decide) (by decide) (by decide) (by decide)
    (by intro e he; simp at he)

lemma mem_of_getLast?_eq_some {α : Type} {l : List α} {a : α}
    (h : l.getLast? = some a) : a ∈ l := by
  cases l with
  | nil => simp at h
  | cons b t =>
    rw [List.getLast?_eq_getLast _ (by simp)] at h
    exact (Option.some.inj h) ▸ List.getLast_mem _

/-- C9: a student-grid cell only ever holds a record of the input whose
normalized slot is exactly that cell's (non-empty) slot and whose day is
that cell's weekday; records with an empty normalized slot or an
unrecognized day appear in no cell. -/
theorem student_grid_invariant :
    (∀ (tt : List TimetableEntry) (s dy : JStr) (e : TimetableEntry),
        buildGrid tt s dy = some e →
        e ∈ tt ∧ entrySlot e = s ∧ s ≠ [] ∧ e.day = dy ∧ dy ∈ DAY_ORDER) ∧
    (∀ (tt : List TimetableEntry) (e : TimetableEntry),
        entrySlot e = [] ∨ e.day ∉ DAY_ORDER →
        ∀ s dy, buildGrid tt s dy ≠ some e) := by
  constructor
  · intro tt s dy e h
    rw [buildGrid_eq_getLast] at h
    have hmem : e ∈ tt.filter (cellHit s dy) := mem_of_getLast?_eq_some h
    rw [List.mem_filter] at hmem
    obtain ⟨htt, hhit⟩ := hmem
    simp only [cellHit, decide_eq_true_eq] at hhit
    exact ⟨htt, hhit⟩
  · intro tt e hbad s dy h
    rw [buildGrid_eq_getLast] at h
    have hmem : e ∈ tt.filter (cellHit s dy) := mem_of_getLast?_eq_some h
    rw [List.mem_filter] at hmem
    obtain ⟨-, hhit⟩ := hmem
    simp only [cellHit, decide_eq_true_eq] at hhit
    obtain ⟨h1, h2, h3, h4⟩ := hhit
    rcases hbad with hb | hb
    · exact h2 (h1 ▸ hb)
    · exact hb (h3 ▸ h4)

/-- C9 witness: a placed record's cell satisfies the invariant, and a
record with an unknown day name is in no cell. -/
theorem student_grid_invariant_witness :
    (sampleEntry "Monday" "10:00-11:00" "CS101" ∈
        [sampleEntry "Monday" "10:00-11:00" "CS101"] ∧
      entrySlot (sampleEntry "Monday" "10:00-11:00" "CS101") = "10:00-11:00".toList ∧
      "10:00-11:00".toList ≠ [] ∧
      (sampleEntry "Monday" "10:00-11:00" "CS101").day = "Monday".toList ∧
      "Monday".toList ∈ DAY_ORDER) ∧
    buildGrid [sampleEntry "Funday" "10:00-11:00" "CS101"]
      "10:00-11:00".toList "Funday".toList ≠
      some (sampleEntry "Funday" "10:00-11:00" "CS101") :=
  ⟨student_grid_invariant.1 [sampleEntry "Monday" "10:00-11:00" "CS101"]
      "10:00-11:00".toList "Monday".toList
      (sampleEntry "Monday" "10:00-11:00" "CS101") (by decide),
   student_grid_invariant.2 [sampleEntry "Funday" "10:00-11:00" "CS101"]
      (sampleEntry "Funday" "10:00-11:00" "CS101") (Or.inr (by decide))
      "10:00-11:00".toList "Funday".toList⟩

lemma splitUnderscore_ne_nil (s : JStr) : splitUnderscore s ≠ [] := by
  cases s with
  | nil => simp [splitUnderscore]
  | cons c cs =>
    unfold splitUnderscore
    cases h : splitUnderscore cs with
    | nil => simp
    | cons a t => by_cases hc : c = '_' <;> simp [hc]

lemma splitUnderscore_cons (c : Char) (cs : JStr) :
    splitUnderscore (c :: cs) =
      match splitUnderscore cs with
      | [] => [[]]
      | h :: t => if c = '_' then [] :: h :: t else (c :: h) :: t := rfl

lemma splitUnderscore_append_underscore (day rest : JStr) (hday : '_' ∉ day) :
    splitUnderscore (day ++ '_' :: rest) = day :: splitUnderscore rest := by
  induction day with
  | nil =>
    rw [List.nil_append, splitUnderscore_cons]
    cases h : splitUnderscore rest with
    | nil => exact absurd h (splitUnderscore_ne_nil rest)
    | cons a t => simp
  | cons c cs ih =>
    have hc : c ≠ '_' := fun h => hday (h ▸ List.mem_cons_self c cs)
    have hcs : '_' ∉ cs := fun h => hday (List.mem_cons_of_mem c h)
    rw [List.cons_append, splitUnderscore_cons, ih hcs]
    simp [hc]

lemma joinUnderscore_splitUnderscore (s : JStr) :
    joinUnderscore (splitUnderscore s) = s := by
  induction s with
  | nil => simp [splitUnderscore, joinUnderscore]
  | cons c cs ih =>
    rw [splitUnderscore_cons]
    cases h : splitUnderscore cs with
    | nil => exact absurd h (splitUnderscore_ne_nil cs)
    | cons a t =>
      rw [h] at ih
      by_cases hc : c = '_'
      · subst hc
        simp only [if_pos rfl, joinUnderscore]
        simpa using ih
      · simp only [if_neg hc]
        cases t with
        | nil => simpa [joinUnderscore] using congrArg (c :: ·) ih
        | cons b t' => simpa [joinUnderscore] using congrArg (c :: ·) ih

/-- Predicate: `pat` is an initial segment of `s`. -/
def leadsWith : JStr → JStr → Bool
  | [], _ => true
  | _ :: _, [] => false
  | p :: ps, c :: cs => p == c && leadsWith ps cs

/-- The "weekday-prefix pattern": the label starts with `"<Weekday>_"`. -/
def startsWithWeekday (raw : JStr) : Bool :=
  DAY_ORDER.any (fun d => leadsWith (d ++ ['_']) raw)

lemma leadsWith_self_append (x z : JStr) : leadsWith x (x ++ z) = true := by
  induction x with
  | nil => simp [leadsWith]
  | cons c cs ih => simp [leadsWith, ih]

lemma sanitizeSlot_some (r : JStr) :
    sanitizeSlot (some r) =
      if r = [] then []
      else if 2 ≤ (splitUnderscore r).length ∧ (splitUnderscore r).headI ∈ DAY_ORDER
      then joinUnderscore (splitUnderscore r).tail else r := rfl

/-- C5: normalization strips a leading `"<Weekday>_"` prefix and returns
the bare remainder; a label that does not start with `"<Weekday>_"` is
returned unchanged. -/
theorem sanitizeSlot_spec :
    (∀ (day rest : JStr), day ∈ DAY_ORDER →
        sanitizeSlot (some (day ++ '_' :: rest)) = rest) ∧
    (∀ raw : JStr, startsWithWeekday raw = false → sanitizeSlot (some raw) = raw) := by
  have hnou : ∀ d ∈ DAY_ORDER, '_' ∉ d := by decide
  constructor
  · intro day rest hday
    have hsplit := splitUnderscore_append_underscore day rest (hnou day hday)
    have hne : ¬(day ++ '_' :: rest = []) := by simp
    rw [sanitizeSlot_some, if_neg hne, hsplit]
    obtain ⟨a, t, hat⟩ : ∃ a t, splitUnderscore rest = a :: t := by
      cases h : splitUnderscore rest with
      | nil => exact absurd h (splitUnderscore_ne_nil rest)
      | cons a t => exact ⟨a, t, rfl⟩
    rw [hat]
    rw [if_pos ⟨by simp, by simpa using hday⟩]
    rw [List.tail_cons, ← hat, joinUnderscore_splitUnderscore]
  · intro raw hsww
    rw [sanitizeSlot_some]
    by_cases hr : raw = []
    · simp [hr]
    · rw [if_neg hr]
      by_cases hcond : 2 ≤ (splitUnderscore raw).length ∧
          (splitUnderscore raw).headI ∈ DAY_ORDER
      · exfalso
        obtain ⟨hlen, hhead⟩ := hcond
        obtain ⟨a, t, hat⟩ : ∃ a t, splitUnderscore raw = a :: t := by
          cases h : splitUnderscore raw with
          | nil => exact absurd h (splitUnderscore_ne_nil raw)
          | cons a t => exact ⟨a, t, rfl⟩
        rw [hat] at hlen hhead
        obtain ⟨b, t', hbt⟩ : ∃ b t', t = b :: t' := by
          cases t with
          | nil => simp at hlen
          | cons b t' => exact ⟨b, t', rfl⟩
        subst hbt
        have hraw : raw = a ++ '_' :: joinUnderscore (b :: t') := by
          conv_lhs => rw [← joinUnderscore_splitUnderscore raw, hat]
          rfl
        have hlead : leadsWith (a ++ ['_']) raw = true := by
          rw [hraw]
          have hsh : a ++ '_' :: joinUnderscore (b :: t') =
              (a ++ ['_']) ++ joinUnderscore (b :: t') := by simp
          rw [hsh]
          exact leadsWith_self_append _ _
        have htrue : startsWithWeekday raw = true := by
          unfold startsWithWeekday
          rw [List.any_eq_true]
          exact ⟨a, by simpa using hhead, hlead⟩
        rw [htrue] at hsww
        simp at hsww
      · rw [if_neg hcond]

/-- C5 witness: `"Monday_10:00-11:00"` loses its prefix; `"Foo_10"` is
returned unchanged. -/
theorem sanitizeSlot_spec_witness :
    sanitizeSlot (some ("Monday".toList ++ '_' :: "10:00-11:00".toList)) =
      "10:00-11:00".toList ∧
    sanitizeSlot (some "Foo_10".toList) = "Foo_10".toList :=
  ⟨sanitizeSlot_spec.1 "Monday".toList "10:00-11:00".toList (by decide),
   sanitizeSlot_spec.2 "Foo_10".toList (by decide)⟩

lemma isDigit_ne_sep {c : Char} (h : c.isDigit = true) :
    c ≠ '-' ∧ c ≠ '–' ∧ c ≠ ':' := by
  refine ⟨?_, ?_, ?_⟩ <;>
    (intro he; rw [he] at h; exact absurd h (by decide))

lemma isDigit_not_ws {c : Char} (h : c.isDigit = true) :
    c.isWhitespace = false := by
  by_contra hw
  rw [Bool.not_eq_false] at hw
  simp [Char.isWhitespace] at hw
  rcases hw with ((h1 | h1) | h1) | h1 <;>
    (rw [h1] at h; exact absurd h (by decide))

lemma sepOf_cases (slot : JStr) : sepOf slot = '-' ∨ sepOf slot = '–' := by
  unfold sepOf
  by_cases h1 : '-' ∈ slot
  · simp [h1]
  · by_cases h2 : '–' ∈ slot <;> simp [h1, h2]

lemma jsTrim_head5 (c1 c2 c3 c4 c5 : Char) (t : JStr)
    (h1 : c1.isWhitespace = false) (h5 : c5.isWhitespace = false) :
    ∃ t', jsTrim (c1 :: c2 :: c3 :: c4 :: c5 :: t) = c1 :: c2 :: c3 :: c4 :: c5 :: t' := by
  unfold jsTrim
  rw [List.dropWhile_cons, if_neg (by simp [h1])]
  have hrev : (c1 :: c2 :: c3 :: c4 :: c5 :: t).reverse =
      t.reverse ++ [c5, c4, c3, c2, c1] := by simp
  rw [hrev, List.dropWhile_append]
  by_cases he : (t.reverse.dropWhile Char.isWhitespace).isEmpty = true
  · rw [if_pos he, List.dropWhile_cons, if_neg (by simp [h5])]
    exact ⟨[], by simp⟩
  · rw [if_neg he]
    exact ⟨(t.reverse.dropWhile Char.isWhitespace).reverse, by simp⟩

lemma matchHHMM_two_digit (c1 c2 m1 m2 : Char) (t : JStr)
    (h1 : c1.isDigit = true) (h2 : c2.isDigit = true)
    (h3 : m1.isDigit = true) (h4 : m2.isDigit = true) :
    matchHHMM (c1 :: c2 :: ':' :: m1 :: m2 :: t) =
      some (digitVal c1 * 10 + digitVal c2, digitVal m1 * 10 + digitVal m2) := by
  simp [matchHHMM, h1, h2, h3, h4]

lemma matchHHMM_one_digit (c1 m1 m2 : Char) (t : JStr)
    (h1 : c1.isDigit = true) (h3 : m1.isDigit = true) (h4 : m2.isDigit = true) :
    matchHHMM (c1 :: ':' :: m1 :: m2 :: t) =
      some (digitVal c1, digitVal m1 * 10 + digitVal m2) := by
  simp [matchHHMM, h1, h3, h4]

lemma jsTrim_head4 (c1 c2 c3 c4 : Char) (t : JStr)
    (h1 : c1.isWhitespace = false) (h4 : c4.isWhitespace = false) :
    ∃ t', jsTrim (c1 :: c2 :: c3 :: c4 :: t) = c1 :: c2 :: c3 :: c4 :: t' := by
  unfold jsTrim
  rw [List.dropWhile_cons, if_neg (by simp [h1])]
  have hrev : (c1 :: c2 :: c3 :: c4 :: t).reverse =
      t.reverse ++ [c4, c3, c2, c1] := by simp
  rw [hrev, List.dropWhile_append]
  by_cases he : (t.reverse.dropWhile Char.isWhitespace).isEmpty = true
  · rw [if_pos he, List.dropWhile_cons, if_neg (by simp [h4])]
    exact ⟨[], by simp⟩
  · rw [if_neg he]
    exact ⟨(t.reverse.dropWhile Char.isWhitespace).reverse, by simp⟩

lemma startOf_head5 (c1 c2 c3 c4 c5 : Char) (rest : JStr)
    (hw1 : c1.isWhitespace = false) (hw5 : c5.isWhitespace = false)
    (hs1 : c1 ≠ sepOf (c1 :: c2 :: c3 :: c4 :: c5 :: rest))
    (hs2 : c2 ≠ sepOf (c1 :: c2 :: c3 :: c4 :: c5 :: rest))
    (hs3 : c3 ≠ sepOf (c1 :: c2 :: c3 :: c4 :: c5 :: rest))
    (hs4 : c4 ≠ sepOf (c1 :: c2 :: c3 :: c4 :: c5 :: rest))
    (hs5 : c5 ≠ sepOf (c1 :: c2 :: c3 :: c4 :: c5 :: rest)) :
    ∃ t', startOf (c1 :: c2 :: c3 :: c4 :: c5 :: rest) =
      c1 :: c2 :: c3 :: c4 :: c5 :: t' := by
  unfold startOf
  rw [List.takeWhile_cons, if_pos (decide_eq_true hs1),
    List.takeWhile_cons, if_pos (decide_eq_true hs2),
    List.takeWhile_cons, if_pos (decide_eq_true hs3),
    List.takeWhile_cons, if_pos (decide_eq_true hs4),
    List.takeWhile_cons, if_pos (decide_eq_true hs5)]
  exact jsTrim_head5 _ _ _ _ _ _ hw1 hw5

lemma startOf_head4 (c1 c2 c3 c4 : Char) (rest : JStr)
    (hw1 : c1.isWhitespace = false) (hw4 : c4.isWhitespace = false)
    (hs1 : c1 ≠ sepOf (c1 :: c2 :: c3 :: c4 :: rest))
    (hs2 : c2 ≠ sepOf (c1 :: c2 :: c3 :: c4 :: rest))
    (hs3 : c3 ≠ sepOf (c1 :: c2 :: c3 :: c4 :: rest))
    (hs4 : c4 ≠ sepOf (c1 :: c2 :: c3 :: c4 :: rest)) :
    ∃ t', startOf (c1 :: c2 :: c3 :: c4 :: rest) = c1 :: c2 :: c3 :: c4 :: t' := by
  unfold startOf
  rw [List.takeWhile_cons, if_pos (decide_eq_true hs1),
    List.takeWhile_cons, if_pos (decide_eq_true hs2),
    List.takeWhile_cons, if_pos (decide_eq_true hs3),
    List.takeWhile_cons, if_pos (decide_eq_true hs4)]
  exact jsTrim_head4 _ _ _ _ _ hw1 hw4

lemma toMinutes_two_digit (c1 c2 m1 m2 : Char) (rest : JStr)
    (h1 : c1.isDigit = true) (h2 : c2.isDigit = true)
    (h3 : m1.isDigit = true) (h4 : m2.isDigit = true) :
    toMinutes (c1 :: c2 :: ':' :: m1 :: m2 :: rest) =
      (digitVal c1 * 10 + digitVal c2) * 60 + (digitVal m1 * 10 + digitVal m2) := by
  obtain ⟨t', ht⟩ := startOf_head5 c1 c2 ':' m1 m2 rest
    (isDigit_not_ws h1) (isDigit_not_ws h4)
    (by rcases sepOf_cases (c1 :: c2 :: ':' :: m1 :: m2 :: rest) with h | h <;> rw [h]
        exacts [(isDigit_ne_sep h1).1, (isDigit_ne_sep h1).2.1])
    (by rcases sepOf_cases (c1 :: c2 :: ':' :: m1 :: m2 :: rest) with h | h <;> rw [h]
        exacts [(isDigit_ne_sep h2).1, (isDigit_ne_sep h2).2.1])
    (by rcases sepOf_cases (c1 :: c2 :: ':' :: m1 :: m2 :: rest) with h | h <;> rw [h] <;> decide)
    (by rcases sepOf_cases (c1 :: c2 :: ':' :: m1 :: m2 :: rest) with h | h <;> rw [h]
        exacts [(isDigit_ne_sep h3).1, (isDigit_ne_sep h3).2.1])
    (by rcases sepOf_cases (c1 :: c2 :: ':' :: m1 :: m2 :: rest) with h | h <;> rw [h]
        exacts [(isDigit_ne_sep h4).1, (isDigit_ne_sep h4).2.1])
  unfold toMinutes
  rw [if_neg (by simp), ht, matchHHMM_two_digit c1 c2 m1 m2 t' h1 h2 h3 h4]

lemma toMinutes_one_digit (c1 m1 m2 : Char) (rest : JStr)
    (h1 : c1.isDigit = true) (h3 : m1.isDigit = true) (h4 : m2.isDigit = true) :
    toMinutes (c1 :: ':' :: m1 :: m2 :: rest) =
      digitVal c1 * 60 + (digitVal m1 * 10 + digitVal m2) := by
  obtain ⟨t', ht⟩ := startOf_head4 c1 ':' m1 m2 rest
    (isDigit_not_ws h1) (isDigit_not_ws h4)
    (by rcases sepOf_cases (c1 :: ':' :: m1 :: m2 :: rest) with h | h <;> rw [h]
        exacts [(isDigit_ne_sep h1).1, (isDigit_ne_sep h1).2.1])
    (by rcases sepOf_cases (c1 :: ':' :: m1 :: m2 :: rest) with h | h <;> rw [h] <;> decide)
    (by rcases sepOf_cases (c1 :: ':' :: m1 :: m2 :: rest) with h | h <;> rw [h]
        exacts [(isDigit_ne_sep h3).1, (isDigit_ne_sep h3).2.1])
    (by rcases sepOf_cases (c1 :: ':' :: m1 :: m2 :: rest) with h | h <;> rw [h]
        exacts [(isDigit_ne_sep h4).1, (isDigit_ne_sep h4).2.1])
  unfold toMinutes
  rw [if_neg (by simp), ht, matchHHMM_one_digit c1 m1 m2 t' h1 h3 h4]

/-- C6 counterexample: `" 10:00-11:00"` has no leading `HH:MM` (it starts
with a space), yet the student `toMinutes` returns 600, not 0 — the code
first cuts at the separator and trims, so the leading whitespace is
discarded before the regex runs. -/
theorem toMinutes_malformed_counterexample :
    matchHHMM " 10:00-11:00".toList = none ∧
      toMinutes " 10:00-11:00".toList = 600 := by decide

/-- C6 amended: a label starting with `HH:MM` (two- or one-digit hour)
yields the start's minutes-since-midnight in both variants; the master
variant returns 0 on every label with no leading `HH:MM`; the student
variant returns 0 exactly when its trimmed pre-separator prefix has no
leading `HH:MM` (which a label such as `" 10:00-11:00"` does have). -/
theorem toMinutes_spec :
    (∀ (c1 c2 m1 m2 : Char) (rest : JStr),
        c1.isDigit = true → c2.isDigit = true →
        m1.isDigit = true → m2.isDigit = true →
        toMinutes (c1 :: c2 :: ':' :: m1 :: m2 :: rest) =
            (digitVal c1 * 10 + digitVal c2) * 60 +
              (digitVal m1 * 10 + digitVal m2) ∧
          toMinutesMaster (c1 :: c2 :: ':' :: m1 :: m2 :: rest) =
            (digitVal c1 * 10 + digitVal c2) * 60 +
              (digitVal m1 * 10 + digitVal m2)) ∧
    (∀ (c1 m1 m2 : Char) (rest : JStr),
        c1.isDigit = true → m1.isDigit = true → m2.isDigit = true →
        toMinutes (c1 :: ':' :: m1 :: m2 :: rest) =
            digitVal c1 * 60 + (digitVal m1 * 10 + digitVal m2) ∧
          toMinutesMaster (c1 :: ':' :: m1 :: m2 :: rest) =
            digitVal c1 * 60 + (digitVal m1 * 10 + digitVal m2)) ∧
    (∀ slot : JStr, matchHHMM slot = none → toMinutesMaster slot = 0) ∧
    (∀ slot : JStr, matchHHMM (startOf slot) = none → toMinutes slot = 0) := by
  refine ⟨?_, ?_, ?_, ?_⟩
  · intro c1 c2 m1 m2 rest h1 h2 h3 h4
    refine ⟨toMinutes_two_digit c1 c2 m1 m2 rest h1 h2 h3 h4, ?_⟩
    unfold toMinutesMaster
    rw [if_neg (by simp), matchHHMM_two_digit c1 c2 m1 m2 rest h1 h2 h3 h4]
  · intro c1 m1 m2 rest h1 h3 h4
    refine ⟨toMinutes_one_digit c1 m1 m2 rest h1 h3 h4, ?_⟩
    unfold toMinutesMaster
    rw [if_neg (by simp), matchHHMM_one_digit c1 m1 m2 rest h1 h3 h4]
  · intro slot hm
    unfold toMinutesMaster
    by_cases hs : slot = []
    · rw [if_pos hs]
    · rw [if_neg hs, hm]
  · intro slot hm
    unfold toMinutes
    by_cases hs : slot = []
    · rw [if_pos hs]
    · rw [if_neg hs, hm]

/-- C6 witness: `"10:00-11:00"` gives 600 in both variants, `"9:05"`
gives 545, and `"abc"` gives 0 in both variants. -/
theorem toMinutes_spec_witness :
    toMinutes "10:00-11:00".toList = 600 ∧
      toMinutesMaster "10:00-11:00".toList = 600 ∧
      toMinutes "9:05".toList = 545 ∧
      toMinutesMaster "abc".toList = 0 ∧
      toMinutes "abc".toList = 0 := by
  have h2 := toMinutes_spec.1 '1' '0' '0' '0' "-11:00".toList
    (by decide) (by decide) (by decide) (by decide)
  have h1 := (toMinutes_spec.2.1 '9' '0' '5' [] (by decide) (by decide) (by decide)).1
  have hm := toMinutes_spec.2.2.1 "abc".toList (by decide)
  have hst := toMinutes_spec.2.2.2 "abc".toList (by decide)
  exact ⟨h2.1.trans (by decide), h2.2.trans (by decide), h1.trans (by decide), hm, hst⟩

/-- C8: an absent (`null`) or empty record list makes the student renderer
return the "no classes" report immediately — no grid is built; the master
variant's partitioning of an empty list likewise yields no grids. -/
theorem empty_input_no_classes :
    studentView none = .noClasses ∧
      studentView (some []) = .noClasses ∧
      groupRecords [] = [] := by
  refine ⟨rfl, ?_, rfl⟩
  simp [studentView]

/-- C10: `onGenerated` fires exactly when the `/generate` request was made
(not already loading, confirm accepted) and succeeded; a failed request
only alerts a failure message; whenever the request was made, `loading`
ends up `false`. -/
theorem handleGenerate_spec :
    ∀ (loading confirmed : Bool) (r : GenResult),
      ((handleGenerate loading confirmed r).callbackInvoked = true ↔
        loading = false ∧ confirmed = true ∧ ∃ m, r = .success m) ∧
      (loading = false → confirmed = true →
        (handleGenerate loading confirmed r).loadingAfter = false) ∧
      (loading = false → confirmed = true → r = .failure →
        (handleGenerate loading confirmed r).callbackInvoked = false ∧
          (handleGenerate loading confirmed r).alert =
            some "Failed to generate timetable.".toList) := by
  intro loading confirmed r
  cases loading <;> cases confirmed <;> cases r <;>
    simp [handleGenerate]

/-- C10 witness: with `loading = false` and the confirm accepted, a
successful request fires the callback; a failed one alerts and resets
`loading`. -/
theorem handleGenerate_spec_witness :
    (handleGenerate false true (.success none)).callbackInvoked = true ∧
      (handleGenerate false true .failure).loadingAfter = false ∧
      (handleGenerate false true .failure).callbackInvoked = false :=
  ⟨(handleGenerate_spec false true (.success none)).1.mpr ⟨rfl, rfl, none, rfl⟩,
   (handleGenerate_spec false true .failure).2.1 rfl rfl,
   ((handleGenerate_spec false true .failure).2.2 rfl rfl rfl).1⟩

/-- C3 counterexample: the claim says the master fetch clears its displayed
record list on failure; it does not — after a failed request the
previously displayed records are still there. -/
theorem fetchMaster_failure_keeps_records :
    (fetchMaster
        ⟨[sampleEntry "Monday" "10:00-11:00" "CS101"], [], false⟩
        .failure).records =
      [sampleEntry "Monday" "10:00-11:00" "CS101"] ∧
      [sampleEntry "Monday" "10:00-11:00" "CS101"] ≠ ([] : List TimetableEntry) :=
  ⟨rfl, by simp⟩

/-- C3 amended: on a failed request each component shows a one-shot
message; the student lookup clears its displayed list, while the master
fetch keeps its records unchanged (only setting the error text), and the
generate handler changes no displayed data (it only alerts). -/
theorem fetch_failure_spec :
    (∀ s : MasterState,
        (fetchMaster s .failure).records = s.records ∧
          (fetchMaster s .failure).error =
            "Failed to fetch master timetable. Did you run /generate?".toList) ∧
    (∀ s : LookupState, s.studentId ≠ [] →
        (handleSearch s .failure).1.timetable = [] ∧
          (handleSearch s .failure).1.studentId = s.studentId ∧
          (handleSearch s .failure).2 =
            some "Could not fetch timetable for this student.".toList) ∧
    ((handleGenerate false true .failure).alert =
        some "Failed to generate timetable.".toList ∧
      (handleGenerate false true .failure).callbackInvoked = false) := by
  refine ⟨fun s => ⟨rfl, rfl⟩, fun s hs => ?_, ⟨rfl, rfl⟩⟩
  unfold handleSearch
  rw [if_neg hs]
  exact ⟨rfl, rfl, rfl⟩

/-- C3 witness: a concrete lookup state with a non-empty student id and a
concrete master state, both after a failed request. -/
theorem fetch_failure_spec_witness :
    (fetchMaster ⟨[sampleEntry "Monday" "9:00-10:00" "CS101"], [], true⟩
        .failure).records = [sampleEntry "Monday" "9:00-10:00" "CS101"] ∧
      (handleSearch ⟨"S1".toList, [sampleEntry "Monday" "9:00-10:00" "CS101"], true⟩
          .failure).1.timetable = [] :=
  ⟨(fetch_failure_spec.1 ⟨[sampleEntry "Monday" "9:00-10:00" "CS101"], [], true⟩).1,
   (fetch_failure_spec.2.1 ⟨"S1".toList, [sampleEntry "Monday" "9:00-10:00" "CS101"], true⟩
      (by decide)).1⟩

lemma mem_insertBy {α : Type} (le : α → α → Bool) (a b : α) (l : List α) :
    b ∈ insertBy le a l ↔ b = a ∨ b ∈ l := by
  induction l with
  | nil => simp [insertBy]
  | cons c t ih =>
    unfold insertBy
    by_cases h : le a c = true
    · simp [h]
    · simp only [if_neg h, List.mem_cons, ih]
      tauto

lemma mem_stableSortBy {α : Type} (le : α → α → Bool) (l : List α) (b : α) :
    b ∈ stableSortBy le l ↔ b ∈ l := by
  induction l with
  | nil => simp [stableSortBy]
  | cons a t ih =>
    unfold stableSortBy
    rw [mem_insertBy, ih]
    simp

lemma mem_insertDedup {α : Type} [DecidableEq α] (l : List α) (a : α) :
    a ∈ insertDedup l ↔ a ∈ l := by
  have key : ∀ (l : List α) (acc : List α),
      a ∈ l.foldl (fun acc s => if s ∈ acc then acc else acc ++ [s]) acc ↔
        a ∈ acc ∨ a ∈ l := by
    intro l
    induction l with
    | nil => simp
    | cons s t ih =>
      intro acc
      rw [List.foldl_cons, ih]
      by_cases h : s ∈ acc
      · rw [if_pos h]
        constructor
        · rintro (ha | ha)
          · exact Or.inl ha
          · exact Or.inr (List.mem_cons_of_mem s ha)
        · rintro (ha | ha)
          · exact Or.inl ha
          · rcases List.mem_cons.mp ha with rfl | ha
            · exact Or.inl h
            · exact Or.inr ha
      · rw [if_neg h]
        simp only [List.mem_append, List.mem_singleton, List.mem_cons]
        tauto
  rw [insertDedup, key]
  simp

lemma insertDedup_append_singleton {α : Type} [DecidableEq α] (l : List α) (a : α) :
    insertDedup (l ++ [a]) =
      if a ∈ insertDedup l then insertDedup l else insertDedup l ++ [a] := by
  unfold insertDedup
  rw [List.foldl_append, List.foldl_cons, List.foldl_nil]

lemma insertDedup_nodup {α : Type} [DecidableEq α] (l : List α) :
    (insertDedup l).Nodup := by
  induction l using List.reverseRecOn with
  | nil => simp [insertDedup]
  | append_singleton t a ih =>
    rw [insertDedup_append_singleton]
    by_cases h : a ∈ insertDedup t
    · rw [if_pos h]; exact ih
    · rw [if_neg h]
      rw [List.nodup_append]
      refine ⟨ih, List.nodup_singleton a, ?_⟩
      intro x hx hxa
      rw [List.mem_singleton] at hxa
      exact h (hxa ▸ hx)


lemma pairwise_insertBy {α : Type} (le : α → α → Bool)
    (htrans : ∀ a b c, le a b = true → le b c = true → le a c = true)
    (htot : ∀ a b, le a b = false → le b a = true)
    (a : α) (l : List α) (hl : l.Pairwise (fun x y => le x y = true)) :
    (insertBy le a l).Pairwise (fun x y => le x y = true) := by
  induction l with
  | nil => simp [insertBy]
  | cons b t ih =>
    rw [List.pairwise_cons] at hl
    obtain ⟨hb, ht⟩ := hl
    unfold insertBy
    by_cases hab : le a b = true
    · rw [if_pos hab, List.pairwise_cons]
      refine ⟨?_, List.pairwise_cons.mpr ⟨hb, ht⟩⟩
      intro x hx
      rcases List.mem_cons.mp hx with rfl | hx
      · exact hab
      · exact htrans a b x hab (hb x hx)
    · rw [if_neg hab, List.pairwise_cons]
      refine ⟨?_, ih ht⟩
      intro x hx
      rw [mem_insertBy] at hx
      rcases hx with rfl | hx
      · exact htot x b (by revert hab; cases le x b <;> simp)
      · exact hb x hx

lemma pairwise_stableSortBy {α : Type} (le : α → α → Bool)
    (htrans : ∀ a b c, le a b = true → le b c = true → le a c = true)
    (htot : ∀ a b, le a b = false → le b a = true) (l : List α) :
    (stableSortBy le l).Pairwise (fun x y => le x y = true) := by
  induction l with
  | nil => simp [stableSortBy]
  | cons a t ih => exact pairwise_insertBy le htrans htot a _ ih

lemma insertBy_perm {α : Type} (le : α → α → Bool) (a : α) (l : List α) :
    (insertBy le a l).Perm (a :: l) := by
  induction l with
  | nil => simp [insertBy]
  | cons b t ih =>
    unfold insertBy
    by_cases hab : le a b = true
    · rw [if_pos hab]
    · rw [if_neg hab]
      exact (ih.cons b).trans (List.Perm.swap a b t)

lemma stableSortBy_perm {α : Type} (le : α → α → Bool) (l : List α) :
    (stableSortBy le l).Perm l := by
  induction l with
  | nil => simp [stableSortBy]
  | cons a t ih =>
    unfold stableSortBy
    exact (insertBy_perm le a _).trans (ih.cons a)

lemma insertDedup_perm_of_perm {α : Type} [DecidableEq α] {l1 l2 : List α}
    (h : l1.Perm l2) : (insertDedup l1).Perm (insertDedup l2) := by
  rw [List.perm_ext_iff_of_nodup (insertDedup_nodup l1) (insertDedup_nodup l2)]
  intro a
  rw [mem_insertDedup, mem_insertDedup]
  exact h.mem_iff

lemma eq_of_sorted_perm_inj (f : JStr → Nat) :
    ∀ (l1 l2 : List JStr),
      l1.Pairwise (fun a b => f a ≤ f b) → l2.Pairwise (fun a b => f a ≤ f b) →
      l1.Perm l2 → (∀ a ∈ l1, ∀ b ∈ l1, f a = f b → a = b) → l1 = l2 := by
  intro l1
  induction l1 with
  | nil =>
    intro l2 h1 h2 hperm hinj
    exact (hperm.symm.eq_nil).symm
  | cons a t1 ih =>
    intro l2 h1 h2 hperm hinj
    cases l2 with
    | nil => exact absurd hperm.eq_nil (by simp)
    | cons b t2 =>
      have hab : a = b := by
        have hamem : a ∈ b :: t2 := hperm.mem_iff.mp (List.mem_cons_self a t1)
        rcases List.mem_cons.mp hamem with h | hat2
        · exact h
        · have hbmem : b ∈ a :: t1 := hperm.symm.mem_iff.mp (List.mem_cons_self b t2)
          rcases List.mem_cons.mp hbmem with h | hbt1
          · exact h.symm
          · have hfab : f a ≤ f b := (List.pairwise_cons.mp h1).1 b hbt1
            have hfba : f b ≤ f a := (List.pairwise_cons.mp h2).1 a hat2
            exact hinj a (List.mem_cons_self a t1) b
              (List.mem_cons_of_mem a hbt1) (Nat.le_antisymm hfab hfba)
      subst hab
      have htails : t1.Perm t2 := hperm.cons_inv
      have ht1 : t1.Pairwise (fun a b => f a ≤ f b) := (List.pairwise_cons.mp h1).2
      have ht2 : t2.Pairwise (fun a b => f a ≤ f b) := (List.pairwise_cons.mp h2).2
      have hinj' : ∀ x ∈ t1, ∀ y ∈ t1, f x = f y → x = y := fun x hx y hy =>
        hinj x (List.mem_cons_of_mem a hx) y (List.mem_cons_of_mem a hy)
      rw [ih t2 ht1 ht2 htails hinj']


/-- C2 counterexample: a master record list with a single Monday record
yields a per-group grid whose day rows are just `["Monday"]` — not the
seven weekdays the claim promises for the master variant. -/
theorem master_grid_rows_counterexample :
    masterDays [sampleEntry "Monday" "10:00-11:00" "CS101"] = ["Monday".toList] ∧
      "Tuesday".toList ∉ masterDays [sampleEntry "Monday" "10:00-11:00" "CS101"] ∧
      (masterDays [sampleEntry "Monday" "10:00-11:00" "CS101"]).length ≠
        DAY_ORDER.length := by decide

/-- C2 amended: whenever the student renderer draws a grid its day rows
are exactly the fixed seven weekdays Monday–Sunday, in that order, even
for days without records; the master per-group variant instead shows
exactly one row per distinct day actually present in that group's
records — no duplicates — in non-decreasing order of the day's index in
its six-day `dayOrder` (a day absent from that list has index `-1`). -/
theorem grid_day_rows_spec :
    (∀ (tt : List TimetableEntry) (slots rows : List JStr)
        (g : JStr → JStr → Option TimetableEntry),
        studentView (some tt) = .table slots rows g →
        rows = DAY_ORDER ∧ rows.length = 7) ∧
    (∀ (entries : List TimetableEntry) (d : JStr),
        d ∈ masterDays entries ↔ ∃ e ∈ entries, e.day = d) ∧
    (∀ entries : List TimetableEntry, (masterDays entries).Nodup) ∧
    (∀ entries : List TimetableEntry,
        (masterDays entries).Pairwise
          (fun a b => jsIndexOf dayOrderMaster a ≤ jsIndexOf dayOrderMaster b)) := by
  have hsv : ∀ tt : List TimetableEntry,
      studentView (some tt) =
        if tt = [] then .noClasses
        else if timeSlots tt = [] then .noSlots
        else .table (timeSlots tt) DAY_ORDER (buildGrid tt) := fun _ => rfl
  refine ⟨?_, ?_, ?_, ?_⟩
  · intro tt slots rows g h
    rw [hsv] at h
    by_cases h1 : tt = []
    · rw [if_pos h1] at h
      exact absurd h (by simp)
    · rw [if_neg h1] at h
      by_cases h2 : timeSlots tt = []
      · simp only [h2, if_pos] at h
        exact absurd h (by simp)
      · simp only [if_neg h2, StudentView.table.injEq] at h
        exact ⟨h.2.1.symm, by rw [← h.2.1]; rfl⟩
  · intro entries d
    unfold masterDays
    rw [mem_stableSortBy, mem_insertDedup, List.mem_map]
  · intro entries
    exact (stableSortBy_perm masterDayLE _).symm.nodup
      (insertDedup_nodup (entries.map (fun e => e.day)))
  · intro entries
    have htransM : ∀ a b c : JStr, masterDayLE a b = true →
        masterDayLE b c = true → masterDayLE a c = true := by
      intro a b c
      simp only [masterDayLE, decide_eq_true_eq]
      omega
    have htotM : ∀ a b : JStr, masterDayLE a b = false → masterDayLE b a = true := by
      intro a b
      simp only [masterDayLE, decide_eq_false_iff_not, decide_eq_true_eq]
      omega
    have := pairwise_stableSortBy masterDayLE htransM htotM
      (insertDedup (entries.map (fun e => e.day)))
    exact this.imp (fun h => by simpa [masterDayLE] using h)

/-- C2 witness: for a one-record list the student table's rows are the
seven weekdays; for a group whose records span Friday and Monday (in that
input order) the master rows are exactly `["Monday", "Friday"]` — one
distinct row per day present, sorted by the six-day order index. -/
theorem grid_day_rows_spec_witness :
    DAY_ORDER.length = 7 ∧
      "Monday".toList ∈ masterDays [sampleEntry "Monday" "10:00-11:00" "CS101"] ∧
      (masterDays [sampleEntry "Friday" "9:00-10:00" "PH1",
          sampleEntry "Monday" "10:00-11:00" "CS101"]).Nodup ∧
      masterDays [sampleEntry "Friday" "9:00-10:00" "PH1",
          sampleEntry "Monday" "10:00-11:00" "CS101"] =
        ["Monday".toList, "Friday".toList] :=
  ⟨(grid_day_rows_spec.1 [sampleEntry "Monday" "10:00-11:00" "CS101"]
      (timeSlots [sampleEntry "Monday" "10:00-11:00" "CS101"]) DAY_ORDER
      (buildGrid [sampleEntry "Monday" "10:00-11:00" "CS101"]) rfl).2,
   (grid_day_rows_spec.2.1 [sampleEntry "Monday" "10:00-11:00" "CS101"]
      "Monday".toList).mpr
     ⟨sampleEntry "Monday" "10:00-11:00" "CS101", by simp, rfl⟩,
   grid_day_rows_spec.2.2.1 [sampleEntry "Friday" "9:00-10:00" "PH1",
      sampleEntry "Monday" "10:00-11:00" "CS101"],
   by decide⟩

lemma insertGroup_map_mem (l : List JStr) (h : JStr → List TimetableEntry)
    (kr : JStr) (r : TimetableEntry) (hnd : l.Nodup) (hin : kr ∈ l) :
    insertGroup (l.map (fun k => (k, h k))) kr r =
      l.map (fun k => (k, if k = kr then h k ++ [r] else h k)) := by
  induction l with
  | nil => simp at hin
  | cons a t ih =>
    rw [List.map_cons, List.map_cons]
    unfold insertGroup
    by_cases hak : a = kr
    · rw [if_pos hak, if_pos hak]
      have hnotin : kr ∉ t := by
        rw [← hak]; exact (List.nodup_cons.mp hnd).1
      congr 1
      apply List.map_congr_left
      intro k hk
      have hkne : ¬(k = kr) := fun hkk => hnotin (hkk ▸ hk)
      rw [if_neg hkne]
    · rw [if_neg hak, if_neg hak]
      have hin' : kr ∈ t := by
        rcases List.mem_cons.mp hin with hkr | hkr
        · exact absurd hkr.symm hak
        · exact hkr
      rw [ih (List.nodup_cons.mp hnd).2 hin']

lemma insertGroup_map_absent (l : List JStr) (h : JStr → List TimetableEntry)
    (kr : JStr) (r : TimetableEntry) (hout : kr ∉ l) :
    insertGroup (l.map (fun k => (k, h k))) kr r =
      l.map (fun k => (k, h k)) ++ [(kr, [r])] := by
  induction l with
  | nil => simp [insertGroup]
  | cons a t ih =>
    rw [List.map_cons]
    unfold insertGroup
    have hak : a ≠ kr := fun hk => hout (hk ▸ List.mem_cons_self a t)
    rw [if_neg hak, ih (fun hk => hout (List.mem_cons_of_mem a hk))]
    simp

lemma groupRecords_eq (recs : List TimetableEntry) :
    groupRecords recs = (insertDedup (recs.map groupKeyOf)).map
      (fun k => (k, recs.filter (fun r => groupKeyOf r = k))) := by
  induction recs using List.reverseRecOn with
  | nil => rfl
  | append_singleton recs r ih =>
    have hstep : groupRecords (recs ++ [r]) =
        insertGroup (groupRecords recs) (groupKeyOf r) r := by
      unfold groupRecords
      rw [List.foldl_append, List.foldl_cons, List.foldl_nil]
    rw [hstep, ih, List.map_append, List.map_singleton, insertDedup_append_singleton]
    by_cases hin : groupKeyOf r ∈ insertDedup (recs.map groupKeyOf)
    · rw [if_pos hin,
        insertGroup_map_mem _ _ _ r (insertDedup_nodup _) hin]
      apply List.map_congr_left
      intro k hk
      rw [List.filter_append]
      by_cases hkk : k = groupKeyOf r
      · subst hkk
        simp
      · rw [if_neg hkk]
        have : List.filter (fun x => decide (groupKeyOf x = k)) [r] = [] := by
          simp
          exact fun h => hkk h.symm
        rw [this, List.append_nil]
    · rw [if_neg hin, insertGroup_map_absent _ _ _ r hin, List.map_append]
      congr 1
      · apply List.map_congr_left
        intro k hk
        have hkk : k ≠ groupKeyOf r := fun h => hin (h ▸ hk)
        rw [List.filter_append]
        have : List.filter (fun x => decide (groupKeyOf x = k)) [r] = [] := by
          simp
          exact fun h => hkk h.symm
        rw [this, List.append_nil]
      · rw [List.map_singleton]
        have hfr : List.filter (fun x => decide (groupKeyOf x = groupKeyOf r)) recs = [] := by
          rw [List.filter_eq_nil_iff]
          intro x hx
          simp only [decide_eq_true_eq]
          intro hgx
          exact hin ((mem_insertDedup _ _).mpr (List.mem_map.mpr ⟨x, hx, hgx⟩))
      
        rw [List.filter_append, hfr, List.nil_append]
        simp

lemma masterGrid_mem (entries : List TimetableEntry) (d s : JStr)
    (e : TimetableEntry) (h : masterGrid entries d s = some e) : e ∈ entries := by
  suffices hgen : ∀ (l : List TimetableEntry) (g : JStr → JStr → Option TimetableEntry),
      (l.foldl placeMaster g) d s = some e → e ∈ l ∨ g d s = some e by
    rcases hgen entries (fun _ _ => none) h with hm | hm
    · exact hm
    · exact absurd hm (by simp)
  intro l
  induction l with
  | nil => intro g hg; exact Or.inr hg
  | cons x t ih =>
    intro g hg
    rw [List.foldl_cons] at hg
    rcases ih (placeMaster g x) hg with hm | hm
    · exact Or.inl (List.mem_cons_of_mem x hm)
    · unfold placeMaster at hm
      by_cases hsl : masterSlotStr x = []
      · rw [if_pos hsl] at hm
        exact Or.inr hm
      · rw [if_neg hsl] at hm
        by_cases hc : d = x.day ∧ s = masterSlotStr x
        · rw [if_pos hc] at hm
          exact Or.inl (List.mem_cons.mpr (Or.inl (Option.some.inj hm).symm))
        · rw [if_neg hc] at hm
          exact Or.inr hm

/-- Concrete grouped record builder for witnesses (the master records carry
their slot in the `Time` field). -/
def groupedEntry (g day slot course : String) : TimetableEntry :=
  ⟨some g.toList, some course.toList, day.toList, none, none, some slot.toList, none⟩

/-- C7 counterexample: with the numeric group ids "2" (first in the
input) and "1", `Object.entries` enumerates the array-index keys in
ascending numeric order, so the "1" grid is emitted before the "2" grid —
not in order of first appearance ("2" first). -/
theorem master_order_counterexample :
    (groupEntries [groupedEntry "2" "Monday" "9:00-10:00" "CS1",
        groupedEntry "1" "Monday" "10:00-11:00" "MA1"]).map Prod.fst =
      ["1".toList, "2".toList] ∧
      insertDedup ([groupedEntry "2" "Monday" "9:00-10:00" "CS1",
          groupedEntry "1" "Monday" "10:00-11:00" "MA1"].map groupKeyOf) =
        ["2".toList, "1".toList] ∧
      (["1".toList, "2".toList] : List JStr) ≠ ["2".toList, "1".toList] := by
  decide

/-- C7 amended: the partition maps each groupId (`"Unknown"` for a
missing/empty one) to exactly its records, one grid per partition, and a
partition's grid only contains that partition's records; the grids are
emitted in ECMAScript property enumeration order — group ids that are
canonical integer strings first, in ascending numeric order, then the
remaining ids in order of first appearance — which coincides with first
appearance whenever no group id is such an integer string. -/
theorem master_partition_spec :
    ∀ recs : List TimetableEntry,
      (groupEntries recs).Perm
          ((insertDedup (recs.map groupKeyOf)).map
            (fun k => (k, recs.filter (fun r => groupKeyOf r = k)))) ∧
      (∀ k v, (k, v) ∈ groupEntries recs →
        (∀ e ∈ v, groupKeyOf e = k ∧ e ∈ recs) ∧
        (∀ d s e, masterGrid v d s = some e → e ∈ v ∧ groupKeyOf e = k)) ∧
      (groupEntries recs).length = (insertDedup (recs.map groupKeyOf)).length ∧
      ((∀ r ∈ recs, canonicalIndex (groupKeyOf r) = none) →
        groupEntries recs = (insertDedup (recs.map groupKeyOf)).map
          (fun k => (k, recs.filter (fun r => groupKeyOf r = k)))) ∧
      (∃ idx rest, groupEntries recs = idx ++ rest ∧
        (∀ p ∈ idx, isIndexKey p.1 = true) ∧
        idx.Pairwise (fun a b => idxVal a.1 ≤ idxVal b.1) ∧
        rest = (groupRecords recs).filter (fun p => !isIndexKey p.1)) := by
  intro recs
  have hperm : (groupEntries recs).Perm (groupRecords recs) := by
    unfold groupEntries
    exact ((stableSortBy_perm entriesLE _).append_right _).trans
      (List.filter_append_perm _ _)
  have hgperm : (groupEntries recs).Perm
      ((insertDedup (recs.map groupKeyOf)).map
        (fun k => (k, recs.filter (fun r => groupKeyOf r = k)))) := by
    rw [← groupRecords_eq]
    exact hperm
  refine ⟨hgperm, ?_, ?_, ?_, ?_⟩
  · intro k v hkv
    have hkv2 := hgperm.mem_iff.mp hkv
    rw [List.mem_map] at hkv2
    obtain ⟨k2, hk2, hpair⟩ := hkv2
    rw [Prod.mk.injEq] at hpair
    obtain ⟨hk, hv⟩ := hpair
    subst hk
    have hmem : ∀ e ∈ v, groupKeyOf e = k2 ∧ e ∈ recs := by
      intro e he
      rw [← hv] at he
      rw [List.mem_filter] at he
      exact ⟨by simpa using he.2, he.1⟩
    exact ⟨hmem, fun d s e hg => ⟨masterGrid_mem v d s e hg,
      (hmem e (masterGrid_mem v d s e hg)).1⟩⟩
  · rw [hgperm.length_eq, List.length_map]
  · intro hnone
    have hkeys : ∀ p ∈ groupRecords recs, isIndexKey p.1 = false := by
      intro p hp
      rw [groupRecords_eq, List.mem_map] at hp
      obtain ⟨k, hk, hpk⟩ := hp
      have hk1 : p.1 = k := by rw [← hpk]
      rw [mem_insertDedup, List.mem_map] at hk
      obtain ⟨r, hr, hkr⟩ := hk
      rw [hk1, ← hkr]
      unfold isIndexKey
      rw [hnone r hr]
      rfl
    have hfi : (groupRecords recs).filter (fun p => isIndexKey p.1) = [] := by
      rw [List.filter_eq_nil_iff]
      intro p hp
      simp [hkeys p hp]
    have hfn : (groupRecords recs).filter (fun p => !isIndexKey p.1) =
        groupRecords recs := by
      rw [List.filter_eq_self]
      intro p hp
      simp [hkeys p hp]
    unfold groupEntries
    rw [hfi, hfn, ← groupRecords_eq]
    rfl
  · refine ⟨stableSortBy entriesLE
        ((groupRecords recs).filter (fun p => isIndexKey p.1)),
      (groupRecords recs).filter (fun p => !isIndexKey p.1), rfl, ?_, ?_, rfl⟩
    · intro p hp
      rw [mem_stableSortBy, List.mem_filter] at hp
      exact hp.2
    · have htransE : ∀ a b c, entriesLE a b = true → entriesLE b c = true →
          entriesLE a c = true := by
        intro a b c
        simp only [entriesLE, decide_eq_true_eq]
        omega
      have htotE : ∀ a b, entriesLE a b = false → entriesLE b a = true := by
        intro a b
        simp only [entriesLE, decide_eq_false_iff_not, decide_eq_true_eq]
        omega
      have := pairwise_stableSortBy entriesLE htransE htotE
        ((groupRecords recs).filter (fun p => isIndexKey p.1))
      exact this.imp (fun h => by simpa [entriesLE] using h)

/-- C7 witness: four records across the three non-numeric groups A, B, C
give exactly three emitted grids, in first-appearance order, and group
A's grid holds a group-A record. -/
theorem master_partition_spec_witness :
    (groupEntries [groupedEntry "A" "Monday" "9:00-10:00" "CS1",
        groupedEntry "B" "Monday" "9:00-10:00" "MA1",
        groupedEntry "A" "Tuesday" "10:00-11:00" "CS2",
        groupedEntry "C" "Friday" "9:00-10:00" "PH1"]).length = 3 ∧
      (groupEntries [groupedEntry "A" "Monday" "9:00-10:00" "CS1",
          groupedEntry "B" "Monday" "9:00-10:00" "MA1",
          groupedEntry "A" "Tuesday" "10:00-11:00" "CS2",
          groupedEntry "C" "Friday" "9:00-10:00" "PH1"]).map Prod.fst =
        ["A".toList, "B".toList, "C".toList] ∧
      groupKeyOf (groupedEntry "A" "Monday" "9:00-10:00" "CS1") = "A".toList := by
  have h := master_partition_spec
    [groupedEntry "A" "Monday" "9:00-10:00" "CS1",
     groupedEntry "B" "Monday" "9:00-10:00" "MA1",
     groupedEntry "A" "Tuesday" "10:00-11:00" "CS2",
     groupedEntry "C" "Friday" "9:00-10:00" "PH1"]
  refine ⟨h.2.2.1.trans (by decide), ?_, ?_⟩
  · exact (congrArg (List.map Prod.fst) (h.2.2.2.1 (by decide))).trans (by decide)
  · exact ((h.2.1 "A".toList
      [groupedEntry "A" "Monday" "9:00-10:00" "CS1",
       groupedEntry "A" "Tuesday" "10:00-11:00" "CS2"]
      (by decide)).1 (groupedEntry "A" "Monday" "9:00-10:00" "CS1") (by decide)).1

/-- C4 counterexample: two distinct labels with the same start-minute
(`10:00-11:00` / `10:00-12:00`).  Both orders are sorted by start-minute,
but the stable sort keeps ties in first-appearance order, so permuting
the input list changes the column sequence. -/
theorem timeSlots_permutation_counterexample :
    List.Perm
        [sampleEntry "Monday" "10:00-11:00" "CS101",
         sampleEntry "Monday" "10:00-12:00" "MA202"]
        [sampleEntry "Monday" "10:00-12:00" "MA202",
         sampleEntry "Monday" "10:00-11:00" "CS101"] ∧
      timeSlots [sampleEntry "Monday" "10:00-11:00" "CS101",
          sampleEntry "Monday" "10:00-12:00" "MA202"] =
        ["10:00-11:00".toList, "10:00-12:00".toList] ∧
      timeSlots [sampleEntry "Monday" "10:00-12:00" "MA202",
          sampleEntry "Monday" "10:00-11:00" "CS101"] =
        ["10:00-12:00".toList, "10:00-11:00".toList] ∧
      toMinutes "10:00-11:00".toList = toMinutes "10:00-12:00".toList ∧
      ("10:00-11:00".toList : JStr) ≠ "10:00-12:00".toList :=
  ⟨List.Perm.swap (sampleEntry "Monday" "10:00-12:00" "MA202")
      (sampleEntry "Monday" "10:00-11:00" "CS101") [],
   by decide, by decide, by decide, by decide⟩

/-- C4 amended: the distinct normalized slot labels are sorted in
non-decreasing start-minute order, the column set is exactly the
non-empty normalized labels of the input, and permuting the input leaves
the column sequence unchanged provided no two distinct labels share a
start-minute (ties are kept in first-appearance order, so with ties a
permutation may reorder them). -/
theorem timeSlots_sorted_spec :
    (∀ tt : List TimetableEntry,
        (timeSlots tt).Pairwise (fun a b => toMinutes a ≤ toMinutes b)) ∧
    (∀ (tt : List TimetableEntry) (s : JStr),
        s ∈ timeSlots tt ↔ s ≠ [] ∧ ∃ e ∈ tt, entrySlot e = s) ∧
    (∀ tt tt' : List TimetableEntry, tt.Perm tt' →
        (∀ a ∈ timeSlots tt, ∀ b ∈ timeSlots tt,
          toMinutes a = toMinutes b → a = b) →
        timeSlots tt = timeSlots tt') := by
  have htransS : ∀ a b c : JStr, slotLE a b = true → slotLE b c = true →
      slotLE a c = true := by
    intro a b c
    simp only [slotLE, decide_eq_true_eq]
    omega
  have htotS : ∀ a b : JStr, slotLE a b = false → slotLE b a = true := by
    intro a b
    simp only [slotLE, decide_eq_false_iff_not, decide_eq_true_eq]
    omega
  have hsorted : ∀ tt : List TimetableEntry,
      (timeSlots tt).Pairwise (fun a b => toMinutes a ≤ toMinutes b) := by
    intro tt
    have := pairwise_stableSortBy slotLE htransS htotS (distinctSlots tt)
    exact this.imp (fun h => by simpa [slotLE] using h)
  refine ⟨hsorted, ?_, ?_⟩
  · intro tt s
    unfold timeSlots distinctSlots
    rw [mem_stableSortBy, mem_insertDedup, List.mem_filter, List.mem_map]
    simp only [decide_eq_true_eq]
    tauto
  · intro tt tt' hperm hinj
    have hd : (distinctSlots tt).Perm (distinctSlots tt') :=
      insertDedup_perm_of_perm ((hperm.map entrySlot).filter _)
    have hp : (timeSlots tt).Perm (timeSlots tt') :=
      ((stableSortBy_perm slotLE _).trans hd).trans (stableSortBy_perm slotLE _).symm
    exact eq_of_sorted_perm_inj toMinutes _ _ (hsorted tt) (hsorted tt') hp hinj

/-- C4 witness: with distinct start-minutes the column sequence is
independent of the input order, and the slot set is as characterized. -/
theorem timeSlots_sorted_spec_witness :
    timeSlots [sampleEntry "Monday" "9:00-10:00" "C1",
        sampleEntry "Monday" "11:00-12:00" "C2"] =
      timeSlots [sampleEntry "Monday" "11:00-12:00" "C2",
        sampleEntry "Monday" "9:00-10:00" "C1"] ∧
      "9:00-10:00".toList ∈ timeSlots [sampleEntry "Monday" "9:00-10:00" "C1"] :=
  ⟨timeSlots_sorted_spec.2.2
      [sampleEntry "Monday" "9:00-10:00" "C1", sampleEntry "Monday" "11:00-12:00" "C2"]
      [sampleEntry "Monday" "11:00-12:00" "C2", sampleEntry "Monday" "9:00-10:00" "C1"]
      (List.Perm.swap (sampleEntry "Monday" "11:00-12:00" "C2")
        (sampleEntry "Monday" "9:00-10:00" "C1") [])
      (by decide),
   (timeSlots_sorted_spec.2.1 [sampleEntry "Monday" "9:00-10:00" "C1"]
      "9:00-10:00".toList).mpr
     ⟨by decide, sampleEntry "Monday" "9:00-10:00" "C1", by simp, by decide⟩⟩
